import Mathlib

/-!
Verification development for the bilirecorder-player danmaku engine.

The definitions below are shallow embeddings of the TypeScript source:
the virtual global timeline (`timeline` in the Player component), the
global/local time mapping used by the seek handlers, the per-frame overlay
visibility scan (`activeOverlayDanmaku` in the DanmakuLayer component), the
track/lane assignment and defensive sort in `parseDanmakuXml`, the session
grouping in `processRecordingFiles`, the smoothing clock of the DanmakuLayer
animation loop, and the sidebar chat list (`visibleChatList`).

JavaScript numbers are modelled exactly over `ℚ`; decimal literals of the
source are read as exact rationals.
-/

/-- Chat event record as decoded from one XML `d` element, restricted to the
fields consumed by the timeline, filtering, lane-assignment and visibility
logic (`time`, `content`, `medalLevel`, `timestamp`, `trackIndex`). -/
structure DanmakuItem where
  time : ℚ
  content : String
  medalLevel : Option ℕ
  timestamp : ℤ
  trackIndex : ℕ
deriving DecidableEq

/-- Default item used for out-of-range list indexing. -/
def defaultItem : DanmakuItem := ⟨0, "", none, 0, 0⟩

/-- Derived timeline entry in global-time coordinates, one per segment.
The source field `end` is a reserved word in Lean and is named `endTime`. -/
structure TimelineEntry where
  start : ℚ
  endTime : ℚ
  duration : ℚ
deriving DecidableEq

/-- Default entry; its `start` is 0, matching the `|| 0` fallbacks of the
source when indexing the timeline out of range. -/
def dfltEntry : TimelineEntry := ⟨0, 0, 0⟩

/-- Per-segment inputs of the timeline computation: `duration` is the declared
duration scanned from the sidecar XML metadata (0 when absent) and `timestamp`
is the file start time in milliseconds taken from the file name. -/
structure StreamSegment where
  duration : ℚ
  timestamp : ℚ
deriving DecidableEq

/-- Duration chosen for one timeline entry, following the priority cascade of
the `timeline` memo in the Player component: declared XML duration when
nonzero, otherwise the timestamp difference to the next segment divided by
1000, otherwise the measured real duration (`realDurations[idx] || 0`,
modelled as a total map defaulting to 0), finally clamped to be nonnegative. -/
def entryDurRaw (real : ℕ → ℚ) (idx : ℕ) (seg : StreamSegment)
    (next? : Option StreamSegment) : ℚ :=
  if seg.duration = 0 then
    match next? with
    | some next => (next.timestamp - seg.timestamp) / 1000
    | none => real idx
  else seg.duration

def entryDur (real : ℕ → ℚ) (idx : ℕ) (seg : StreamSegment)
    (next? : Option StreamSegment) : ℚ :=
  if entryDurRaw real idx seg next? < 0 then 0 else entryDurRaw real idx seg next?

/-- Accumulating pass of the `timeline` memo: each segment contributes an
entry `(start, end, duration)` with `start` the running accumulator. -/
def timelineAux (real : ℕ → ℚ) : ℕ → ℚ → List StreamSegment → List TimelineEntry
  | _, _, [] => []
  | idx, acc, seg :: rest =>
    let dur := entryDur real idx seg rest.head?
    ⟨acc, acc + dur, dur⟩ :: timelineAux real (idx + 1) (acc + dur) rest

/-- Virtual global timeline derived from the session segments, as computed by
the `timeline` memo in the Player component. -/
def timeline (segs : List StreamSegment) (real : ℕ → ℚ) : List TimelineEntry :=
  timelineAux real 0 0 segs

/-- Reported total duration: `timeline[timeline.length - 1]?.end || 0`. -/
def totalDuration (segs : List StreamSegment) (real : ℕ → ℚ) : ℚ :=
  ((timeline segs real).getLast?.map TimelineEntry.endTime).getD 0

/-- Index of the first timeline entry containing global time `t`, as in the
seek handlers: `timeline.findIndex(e => t >= e.start && t < e.end)`. -/
def findEntryIdx (entries : List TimelineEntry) (t : ℚ) : Option ℕ :=
  List.findIdx? (fun e => decide (e.start ≤ t) && decide (t < e.endTime)) entries

/-- Global-to-local mapping of the seek handlers: locate the entry containing
`t` and return its index together with `t - entry.start`. -/
def globalToLocal (entries : List TimelineEntry) (t : ℚ) : Option (ℕ × ℚ) :=
  (findEntryIdx entries t).map fun i => (i, t - (entries.getD i dfltEntry).start)

/-- Local-to-global mapping `globalCurrentTime`:
`(timeline[index]?.start || 0) + currentTime`. -/
def localToGlobal (entries : List TimelineEntry) (idx : ℕ) (lt : ℚ) : ℚ :=
  (entries.getD idx dfltEntry).start + lt

lemma entryDur_nonneg (real : ℕ → ℚ) (idx : ℕ) (seg : StreamSegment)
    (next? : Option StreamSegment) : 0 ≤ entryDur real idx seg next? := by
  unfold entryDur
  split
  · exact le_refl (0 : ℚ)
  · next h => exact le_of_not_lt h

lemma timelineAux_contig (real : ℕ → ℚ) :
    ∀ (segs : List StreamSegment) (idx : ℕ) (acc : ℚ) (k : ℕ),
      k + 1 < (timelineAux real idx acc segs).length →
      ((timelineAux real idx acc segs).getD k dfltEntry).endTime
        = ((timelineAux real idx acc segs).getD (k + 1) dfltEntry).start := by
  intro segs
  induction segs with
  | nil => intro idx acc k hk; simp [timelineAux] at hk
  | cons seg rest ih =>
    intro idx acc k hk
    cases k with
    | zero =>
      simp only [timelineAux, List.length_cons] at hk ⊢
      cases rest with
      | nil => simp [timelineAux] at hk
      | cons s2 r2 =>
        simp [timelineAux, List.getD_cons_zero, List.getD_cons_succ]
    | succ k =>
      simp only [timelineAux, List.length_cons, List.getD_cons_succ] at hk ⊢
      exact ih (idx + 1) (acc + entryDur real idx seg rest.head?) k (by omega)

lemma timelineAux_start (real : ℕ → ℚ) (segs : List StreamSegment) (idx : ℕ)
    (acc : ℚ) (h : segs ≠ []) :
    ((timelineAux real idx acc segs).getD 0 dfltEntry).start = acc := by
  cases segs with
  | nil => exact absurd rfl h
  | cons seg rest => simp [timelineAux]

lemma timelineAux_last_sum (real : ℕ → ℚ) :
    ∀ (segs : List StreamSegment), segs ≠ [] → ∀ (idx : ℕ) (acc d : ℚ),
      (((timelineAux real idx acc segs).getLast?.map TimelineEntry.endTime).getD d)
        = acc + ((timelineAux real idx acc segs).map TimelineEntry.duration).sum := by
  intro segs
  induction segs with
  | nil => intro h; exact absurd rfl h
  | cons seg rest ih =>
    intro _ idx acc d
    cases rest with
    | nil => simp [timelineAux]
    | cons s2 r2 =>
      have key := ih (by simp) (idx + 1) (acc + entryDur real idx seg (some s2)) d
      rw [show timelineAux real idx acc (seg :: s2 :: r2)
            = ⟨acc, acc + entryDur real idx seg (some s2), entryDur real idx seg (some s2)⟩
              :: timelineAux real (idx + 1) (acc + entryDur real idx seg (some s2)) (s2 :: r2)
          from rfl]
      have hcons : ∃ e tl, timelineAux real (idx + 1)
          (acc + entryDur real idx seg (some s2)) (s2 :: r2) = e :: tl :=
        ⟨_, _, rfl⟩
      obtain ⟨e, tl, he⟩ := hcons
      rw [he] at key ⊢
      rw [List.getLast?_cons_cons]
      rw [key]
      simp [add_assoc]

lemma timelineAux_find (real : ℕ → ℚ) :
    ∀ (segs : List StreamSegment) (idx : ℕ) (acc t : ℚ),
      acc ≤ t →
      t < (((timelineAux real idx acc segs).getLast?.map TimelineEntry.endTime).getD acc) →
      ∃ j, findEntryIdx (timelineAux real idx acc segs) t = some j := by
  intro segs
  induction segs with
  | nil =>
    intro idx acc t hle hlt
    simp [timelineAux] at hlt
    exact absurd hle (not_le.mpr hlt)
  | cons seg rest ih =>
    intro idx acc t hle hlt
    by_cases hcase : t < acc + entryDur real idx seg rest.head?
    · refine ⟨0, ?_⟩
      unfold findEntryIdx timelineAux
      rw [List.findIdx?_cons]
      simp [hle, hcase]
    · push_neg at hcase
      cases rest with
      | nil =>
        exfalso
        simp [timelineAux] at hlt
        exact absurd hcase (not_le.mpr hlt)
      | cons s2 r2 =>
        have hlt2 : t < (((timelineAux real (idx + 1)
            (acc + entryDur real idx seg (some s2)) (s2 :: r2)).getLast?.map
              TimelineEntry.endTime).getD (acc + entryDur real idx seg (some s2))) := by
          rw [timelineAux_last_sum real (s2 :: r2) (by simp) (idx + 1)
              (acc + entryDur real idx seg (some s2))
              (acc + entryDur real idx seg (some s2))]
          rw [timelineAux_last_sum real (seg :: s2 :: r2) (by simp) idx acc acc] at hlt
          rw [show timelineAux real idx acc (seg :: s2 :: r2)
                = ⟨acc, acc + entryDur real idx seg (some s2), entryDur real idx seg (some s2)⟩
                  :: timelineAux real (idx + 1) (acc + entryDur real idx seg (some s2))
                    (s2 :: r2)
              from rfl, List.map_cons, List.sum_cons] at hlt
          linarith
        obtain ⟨j, hj⟩ := ih (idx + 1) (acc + entryDur real idx seg (some s2)) t hcase hlt2
        refine ⟨j + 1, ?_⟩
        unfold findEntryIdx at hj ⊢
        unfold timelineAux
        rw [List.findIdx?_cons]
        have hnot : ¬ t < acc + entryDur real idx seg (some s2) := not_lt.mpr hcase
        simp only [List.head?_cons]
        simp [hnot, List.findIdx?_succ, hj]

lemma timelineAux_dur_of_pos (real : ℕ → ℚ) :
    ∀ (segs : List StreamSegment) (idx : ℕ) (acc : ℚ),
      (∀ s ∈ segs, 0 < s.duration) →
      (timelineAux real idx acc segs).map TimelineEntry.duration
        = segs.map StreamSegment.duration := by
  intro segs
  induction segs with
  | nil => intro idx acc _; simp [timelineAux]
  | cons seg rest ih =>
    intro idx acc hpos
    have hposs : 0 < seg.duration := hpos seg (by simp)
    have hd : entryDur real idx seg rest.head? = seg.duration := by
      have h2 : entryDurRaw real idx seg rest.head? = seg.duration := by
        unfold entryDurRaw; simp [ne_of_gt hposs]
      unfold entryDur
      rw [h2]
      simp [not_lt.mpr (le_of_lt hposs)]
    show (List.map TimelineEntry.duration
        (⟨acc, acc + entryDur real idx seg rest.head?, entryDur real idx seg rest.head?⟩
          :: timelineAux real (idx + 1) (acc + entryDur real idx seg rest.head?) rest))
      = seg.duration :: rest.map StreamSegment.duration
    rw [List.map_cons, hd]
    congr 1
    exact ih (idx + 1) (acc + seg.duration)
      (fun s hs => hpos s (by simp [hs]))

/-- Claim C1 (timeline contiguity): for any nonempty segment list, the derived
entries start at 0, are contiguous (each entry ends where the next starts),
and the last end equals the sum of the entry durations, which is also the
reported total duration. When every declared duration is positive, the entry
durations are exactly the declared durations. -/
theorem claim_C1_timeline_contiguity (segs : List StreamSegment) (real : ℕ → ℚ)
    (hne : segs ≠ []) :
    ((timeline segs real).getD 0 dfltEntry).start = 0 ∧
    (∀ k, k + 1 < (timeline segs real).length →
      ((timeline segs real).getD k dfltEntry).endTime
        = ((timeline segs real).getD (k + 1) dfltEntry).start) ∧
    (((timeline segs real).getLast?.map TimelineEntry.endTime).getD 0
      = ((timeline segs real).map TimelineEntry.duration).sum) ∧
    totalDuration segs real
      = ((timeline segs real).map TimelineEntry.duration).sum ∧
    ((∀ s ∈ segs, 0 < s.duration) →
      (timeline segs real).map TimelineEntry.duration = segs.map StreamSegment.duration) := by
  refine ⟨timelineAux_start real segs 0 0 hne,
    fun k hk => timelineAux_contig real segs 0 0 k hk, ?_, ?_, ?_⟩
  · have := timelineAux_last_sum real segs hne 0 0 0
    simpa [timeline] using this
  · have := timelineAux_last_sum real segs hne 0 0 0
    simpa [totalDuration, timeline] using this
  · intro hpos
    exact timelineAux_dur_of_pos real segs 0 0 hpos

/-- Witness for claim C1 at a concrete two-segment session with declared
durations 2 and 3 seconds. -/
theorem claim_C1_timeline_contiguity_witness :
    (([⟨2, 0⟩, ⟨3, 1000⟩] : List StreamSegment) ≠ []) ∧
    totalDuration [⟨2, 0⟩, ⟨3, 1000⟩] (fun _ => 0)
      = ((timeline [⟨2, 0⟩, ⟨3, 1000⟩] (fun _ => 0)).map TimelineEntry.duration).sum :=
  ⟨by simp, (claim_C1_timeline_contiguity [⟨2, 0⟩, ⟨3, 1000⟩] (fun _ => 0)
      (by simp)).2.2.2.1⟩

/-- Claim C2 (global/local round-trip): for any global time `t` in
`[0, totalDuration)`, locating the first timeline entry with
`entry.start ≤ t < entry.end` and taking local time `t - entry.start`, then
mapping back with `entries[index].start + localTime`, yields exactly `t`. -/
theorem claim_C2_global_local_roundtrip (segs : List StreamSegment) (real : ℕ → ℚ)
    (t : ℚ) (h0 : 0 ≤ t) (hlt : t < totalDuration segs real) :
    ∃ j lt, globalToLocal (timeline segs real) t = some (j, lt) ∧
      localToGlobal (timeline segs real) j lt = t := by
  obtain ⟨j, hj⟩ := timelineAux_find real segs 0 0 t h0 hlt
  refine ⟨j, t - ((timeline segs real).getD j dfltEntry).start, ?_, ?_⟩
  · unfold globalToLocal
    rw [show findEntryIdx (timeline segs real) t
          = findEntryIdx (timelineAux real 0 0 segs) t from rfl, hj]
    rfl
  · unfold localToGlobal
    ring

/-- Witness for claim C2: in a session with entry durations 2 and 5, global
time 3 maps to segment 1 at local time 1 and back to 3. -/
theorem claim_C2_global_local_roundtrip_witness :
    ((0 : ℚ) ≤ 3) ∧ ((3 : ℚ) < totalDuration [⟨2, 0⟩, ⟨5, 0⟩] (fun _ => 0)) ∧
    (∃ j lt, globalToLocal (timeline [⟨2, 0⟩, ⟨5, 0⟩] (fun _ => 0)) 3 = some (j, lt) ∧
      localToGlobal (timeline [⟨2, 0⟩, ⟨5, 0⟩] (fun _ => 0)) j lt = 3) :=
  ⟨by norm_num,
    by norm_num [totalDuration, timeline, timelineAux, entryDur, entryDurRaw],
    claim_C2_global_local_roundtrip [⟨2, 0⟩, ⟨5, 0⟩] (fun _ => 0) 3 (by norm_num)
      (by norm_num [totalDuration, timeline, timelineAux, entryDur, entryDurRaw])⟩

/-- Danmaku filter settings of the player (medal-level threshold and
case-insensitive keyword blocklist). -/
structure FilterSettings where
  medalFilterEnabled : Bool
  minMedalLevel : ℕ
  blockedKeywords : List String

/-- Empty filter settings (filters disabled). -/
def noFilters : FilterSettings := ⟨false, 0, []⟩

/-- Test whether `needle` occurs at the start of `hay`. -/
def listStartsWith : List Char → List Char → Bool
  | _, [] => true
  | [], _ :: _ => false
  | a :: hs, b :: ns => a = b && listStartsWith hs ns

/-- Test whether `needle` occurs anywhere in `hay`, modelling the JavaScript
`String.prototype.includes`. -/
def listContainsSub (hay needle : List Char) : Bool :=
  match hay with
  | [] => needle.isEmpty
  | _ :: rest => listStartsWith hay needle || listContainsSub rest needle

/-- Lower-cased character sequence of a string, modelling `toLowerCase`. -/
def lowerChars (s : String) : List Char := s.toList.map Char.toLower

/-- Keyword blocklist test: some blocked keyword occurs (case-insensitively)
in the content. -/
def keywordBlocked (ks : List String) (content : String) : Bool :=
  ks.any fun k => listContainsSub (lowerChars content) (lowerChars k)

/-- Filter rules shared by the overlay scan and the chat list: drop the event
when the medal filter is enabled and `(medalLevel || 0)` is below the
configured minimum, or when the keyword list is nonempty and some blocked
keyword occurs in the content. -/
def passesFilters (fs : FilterSettings) (d : DanmakuItem) : Bool :=
  !(fs.medalFilterEnabled && decide (d.medalLevel.getD 0 < fs.minMedalLevel)) &&
  !(decide (0 < fs.blockedKeywords.length) && keywordBlocked fs.blockedKeywords d.content)

/-- Rendered duration of one event, from `activeOverlayDanmaku`: the content
length (`|| 1`) is clamped to `[1, 10]`, an intrinsic speed factor
`1 - ((clampedLen - 1) * 0.1111) * 0.25` shortens longer text, and the
duration is `16 / (speed * intrinsicFactor)`. -/
def itemDuration (speed : ℚ) (d : DanmakuItem) : ℚ :=
  let len : ℕ := if d.content.length = 0 then 1 else d.content.length
  let clampedLen : ℕ := if len > 10 then 10 else if len < 1 then 1 else len
  let ratio : ℚ := ((clampedLen : ℚ) - 1) * (1111 / 10000)
  let intrinsicFactor : ℚ := 1 - ratio * (1 / 4)
  16 / (speed * intrinsicFactor)

/-- Cursor advance loop of `activeOverlayDanmaku`: while
`startIndex < danmakuData.length - 1` and the cursor event is older than the
earliest-possible-visible bound, move the cursor forward. -/
def advanceCursor (data : List DanmakuItem) (stw : ℚ) (idx : ℕ) : ℕ :=
  if h : idx + 1 < data.length ∧ (data.getD idx defaultItem).time < stw then
    advanceCursor data stw (idx + 1)
  else idx
termination_by data.length - idx
decreasing_by
  obtain ⟨h1, _⟩ := h
  omega

/-- Collection loop of `activeOverlayDanmaku` from the cursor onward: break at
the first event beyond the 0.5 second lookahead bound, keep an event when it
has not yet exited its lifetime and passes the filters. -/
def collectFrom (speed : ℚ) (fs : FilterSettings) (now endW : ℚ) :
    List DanmakuItem → List DanmakuItem
  | [] => []
  | d :: rest =>
    if d.time > endW then []
    else if decide (d.time ≥ now - itemDuration speed d) && passesFilters fs d then
      d :: collectFrom speed fs now endW rest
    else collectFrom speed fs now endW rest

/-- Overlay visibility scan `activeOverlayDanmaku`: given the show flag, the
sorted event sequence, the scroll speed setting, the filters, the smoothed
current time and the persisted cursor, return the visible events together
with the new persisted cursor. The cursor is reset to 0 when its event starts
more than 10 seconds after the earliest-possible-visible bound. -/
def activeOverlay (showOverlay : Bool) (data : List DanmakuItem) (speed : ℚ)
    (fs : FilterSettings) (now : ℚ) (cursor : ℕ) : List DanmakuItem × ℕ :=
  if showOverlay = false ∨ data = [] then ([], cursor)
  else
    let maxDuration : ℚ := 16 / (speed * (3 / 4))
    let stw : ℚ := now - maxDuration
    let c1 : ℕ :=
      if cursor < data.length ∧ (data.getD cursor defaultItem).time > stw + 10 then 0
      else cursor
    let c2 : ℕ := advanceCursor data stw c1
    (collectFrom speed fs now (now + 1 / 2) (data.drop c2), c2)

/-- Membership predicate characterising the overlay result on sorted data:
the event has arrived within the 0.5 second lookahead, has not exited its
rendered lifetime, and passes the filters. -/
def overlayPred (speed : ℚ) (fs : FilterSettings) (now : ℚ) (d : DanmakuItem) : Bool :=
  decide (now - itemDuration speed d ≤ d.time) && decide (d.time ≤ now + 1 / 2) &&
    passesFilters fs d

lemma clampedLen_bounds (len : ℕ) :
    1 ≤ (if len > 10 then 10 else if len < 1 then 1 else len) ∧
    (if len > 10 then 10 else if len < 1 then 1 else len) ≤ 10 := by
  split
  · omega
  · split <;> omega

lemma itemDuration_le_max (speed : ℚ) (hsp : 0 < speed) (d : DanmakuItem) :
    itemDuration speed d ≤ 16 / (speed * (3 / 4)) := by
  unfold itemDuration
  obtain ⟨h1, h2⟩ := clampedLen_bounds
    (if d.content.length = 0 then 1 else d.content.length)
  set c : ℕ := if (if d.content.length = 0 then 1 else d.content.length) > 10 then 10
    else if (if d.content.length = 0 then 1 else d.content.length) < 1 then 1
    else (if d.content.length = 0 then 1 else d.content.length) with hc
  have hcq : (c : ℚ) ≤ 10 := by exact_mod_cast h2
  have hcq1 : (1 : ℚ) ≤ (c : ℚ) := by exact_mod_cast h1
  have hfac : (3 / 4 : ℚ) ≤ 1 - ((c : ℚ) - 1) * (1111 / 10000) * (1 / 4) := by
    nlinarith
  have hdenpos : (0 : ℚ) < speed * (3 / 4) := by positivity
  have hmul : speed * (3 / 4) ≤ speed * (1 - ((c : ℚ) - 1) * (1111 / 10000) * (1 / 4)) :=
    mul_le_mul_of_nonneg_left hfac (le_of_lt hsp)
  exact div_le_div_of_nonneg_left (by norm_num) hdenpos hmul

lemma itemDuration_pos (speed : ℚ) (hsp : 0 < speed) (d : DanmakuItem) :
    0 < itemDuration speed d := by
  unfold itemDuration
  obtain ⟨h1, h2⟩ := clampedLen_bounds
    (if d.content.length = 0 then 1 else d.content.length)
  set c : ℕ := if (if d.content.length = 0 then 1 else d.content.length) > 10 then 10
    else if (if d.content.length = 0 then 1 else d.content.length) < 1 then 1
    else (if d.content.length = 0 then 1 else d.content.length) with hc
  have hcq : (c : ℚ) ≤ 10 := by exact_mod_cast h2
  have hfacpos : (0 : ℚ) < 1 - ((c : ℚ) - 1) * (1111 / 10000) * (1 / 4) := by nlinarith
  positivity

lemma collectFrom_eq_filter (speed : ℚ) (fs : FilterSettings) (now endW : ℚ) :
    ∀ l : List DanmakuItem, List.Sorted (fun a b => a.time ≤ b.time) l →
      collectFrom speed fs now endW l
        = l.filter (fun d => decide (now - itemDuration speed d ≤ d.time)
            && decide (d.time ≤ endW) && passesFilters fs d) := by
  intro l
  induction l with
  | nil => intro _; simp [collectFrom]
  | cons d rest ih =>
    intro hs
    rw [List.sorted_cons] at hs
    obtain ⟨hd, hrest⟩ := hs
    unfold collectFrom
    by_cases h1 : d.time > endW
    · rw [if_pos h1, eq_comm, List.filter_eq_nil_iff]
      intro a ha
      have hda : d.time ≤ a.time := by
        rcases List.mem_cons.mp ha with h | h
        · rw [h]
        · exact hd a h
      have : ¬ a.time ≤ endW := by linarith
      simp [this]
    · rw [if_neg h1]
      push_neg at h1
      by_cases h2 : (decide (d.time ≥ now - itemDuration speed d)
          && passesFilters fs d) = true
      · rw [if_pos h2, List.filter_cons, if_pos (by
          simp only [Bool.and_eq_true, decide_eq_true_eq] at h2 ⊢
          exact ⟨⟨h2.1, h1⟩, h2.2⟩), ih hrest]
      · rw [if_neg h2, List.filter_cons, if_neg (by
          simp only [Bool.and_eq_true, decide_eq_true_eq] at h2 ⊢
          intro hcon
          exact h2 ⟨hcon.1.1, hcon.2⟩), ih hrest]

lemma advanceCursor_prefix (data : List DanmakuItem) (stw : ℚ) (idx : ℕ)
    (hpre : ∀ x ∈ data.take idx, x.time < stw) :
    ∀ x ∈ data.take (advanceCursor data stw idx), x.time < stw := by
  have main : ∀ n idx, data.length - idx ≤ n →
      (∀ x ∈ data.take idx, x.time < stw) →
      ∀ x ∈ data.take (advanceCursor data stw idx), x.time < stw := by
    intro n
    induction n with
    | zero =>
      intro idx hle hpre
      rw [advanceCursor, dif_neg (by
        intro hcon
        exact absurd hcon.1 (by omega))]
      exact hpre
    | succ n ih =>
      intro idx hle hpre
      rw [advanceCursor]
      split
      · next h =>
        refine ih (idx + 1) (by omega) ?_
        intro x hx
        rw [List.take_succ] at hx
        rcases List.mem_append.mp hx with h1 | h1
        · exact hpre x h1
        · have hidx : idx < data.length := by omega
          rw [List.getElem?_eq_getElem hidx] at h1
          simp only [Option.toList_some, List.mem_singleton] at h1
          rw [h1]
          have h2 := h.2
          rwa [List.getD_eq_getElem data defaultItem hidx] at h2
      · next h => exact hpre
  exact main (data.length - idx) idx le_rfl hpre

lemma advanceCursor_eq_from_prefix (data : List DanmakuItem) (stw : ℚ) (c : ℕ)
    (hc : c < data.length)
    (hpre : ∀ x ∈ data.take c, x.time < stw) :
    advanceCursor data stw 0 = advanceCursor data stw c := by
  have main : ∀ n i, i ≤ c → c - i ≤ n →
      advanceCursor data stw i = advanceCursor data stw c := by
    intro n
    induction n with
    | zero =>
      intro i hi hle
      have : i = c := by omega
      rw [this]
    | succ n ih =>
      intro i hi hle
      by_cases hic : i = c
      · rw [hic]
      · have hilt : i < c := by omega
        have hmem : data[i] ∈ data.take c :=
          List.mem_take_iff_getElem.mpr ⟨i, by omega, rfl⟩
        have hti : (data.getD i defaultItem).time < stw := by
          rw [List.getD_eq_getElem data defaultItem (by omega)]
          exact hpre _ hmem
        have hstep : advanceCursor data stw i = advanceCursor data stw (i + 1) := by
          conv_lhs => rw [advanceCursor]
          rw [dif_pos ⟨by omega, hti⟩]
        rw [hstep]
        exact ih (i + 1) (by omega) (by omega)
  exact main c 0 (Nat.zero_le c) le_rfl

lemma overlay_scan_eq_filter (data : List DanmakuItem) (speed : ℚ)
    (fs : FilterSettings) (now : ℚ) (c1 : ℕ)
    (hs : List.Sorted (fun a b => a.time ≤ b.time) data) (hsp : 0 < speed)
    (hpre : ∀ x ∈ data.take c1, x.time < now - 16 / (speed * (3 / 4))) :
    collectFrom speed fs now (now + 1 / 2)
        (data.drop (advanceCursor data (now - 16 / (speed * (3 / 4))) c1))
      = data.filter (overlayPred speed fs now) := by
  set stw := now - 16 / (speed * (3 / 4)) with hstw
  set a := advanceCursor data stw c1 with ha
  have hpref : ∀ x ∈ data.take a, x.time < stw := advanceCursor_prefix data stw c1 hpre
  have hdropSorted : List.Sorted (fun a b => a.time ≤ b.time) (data.drop a) :=
    hs.sublist (List.drop_sublist a data)
  rw [collectFrom_eq_filter speed fs now (now + 1 / 2) _ hdropSorted]
  have hpredeq : (fun d => decide (now - itemDuration speed d ≤ d.time)
      && decide (d.time ≤ now + 1 / 2) && passesFilters fs d)
      = overlayPred speed fs now := rfl
  rw [hpredeq]
  conv_rhs => rw [← List.take_append_drop a data]
  rw [List.filter_append]
  have htake : (data.take a).filter (overlayPred speed fs now) = [] := by
    rw [List.filter_eq_nil_iff]
    intro x hx
    have hxs : x.time < stw := hpref x hx
    have hdur := itemDuration_le_max speed hsp x
    have hnot : ¬ (now - itemDuration speed x ≤ x.time) := by
      rw [hstw] at hxs
      linarith
    simp [overlayPred, hnot]
  rw [htake, List.nil_append]

lemma activeOverlay_eq (data : List DanmakuItem) (speed : ℚ) (fs : FilterSettings)
    (now : ℚ) (cursor : ℕ) (hne : data ≠ []) :
    activeOverlay true data speed fs now cursor
      = (collectFrom speed fs now (now + 1 / 2)
          (data.drop (advanceCursor data (now - 16 / (speed * (3 / 4)))
            (if cursor < data.length ∧
                (data.getD cursor defaultItem).time > (now - 16 / (speed * (3 / 4))) + 10
              then 0 else cursor))),
        advanceCursor data (now - 16 / (speed * (3 / 4)))
          (if cursor < data.length ∧
              (data.getD cursor defaultItem).time > (now - 16 / (speed * (3 / 4))) + 10
            then 0 else cursor)) := by
  unfold activeOverlay
  rw [if_neg (by simp [hne])]

/-- Claim C3, amended: on a time-sorted sequence with positive scroll speed,
an event is in the overlay result exactly while
`now - duration ≤ event.time ≤ now + 0.5` and it passes the filters: the scan
admits events up to 0.5 seconds of lookahead, so an event with time 5.0 and
duration 2.0 is in the result at now = 6.9 and not at now = 7.1, but it is
also already in the result at now = 4.9. -/
theorem claim_C3_overlay_window (data : List DanmakuItem) (speed now : ℚ)
    (fs : FilterSettings)
    (hs : List.Sorted (fun a b : DanmakuItem => a.time ≤ b.time) data)
    (hsp : 0 < speed) :
    (activeOverlay true data speed fs now 0).1
      = data.filter (overlayPred speed fs now) := by
  by_cases hdata : data = []
  · subst hdata; simp [activeOverlay]
  · rw [activeOverlay_eq data speed fs now 0 hdata]
    simp only [ite_self]
    exact overlay_scan_eq_filter data speed fs now 0 hs hsp (by simp)

/-- Counterexample to claim C3 as stated: with scroll speed 8 the
one-character event at time 5.0 has rendered duration exactly 2.0, and at
now = 4.9 it is already in the rendered overlay set even though its time
exceeds now (the scan keeps events up to 0.5 seconds ahead). -/
theorem claim_C3_counterexample :
    itemDuration 8 ⟨5, "a", none, 0, 0⟩ = 2 ∧
    (5 : ℚ) > 49 / 10 ∧
    (activeOverlay true [⟨5, "a", none, 0, 0⟩] 8 noFilters (49 / 10) 0).1
      = [⟨5, "a", none, 0, 0⟩] := by
  have h1 : "a".length = 1 := rfl
  have hadv : ∀ s : ℚ, advanceCursor [(⟨5, "a", none, 0, 0⟩ : DanmakuItem)] s 0 = 0 := by
    intro s
    rw [advanceCursor]
    norm_num
  refine ⟨by norm_num [itemDuration, h1], by norm_num, ?_⟩
  rw [activeOverlay_eq _ _ _ _ _ (by simp)]
  norm_num [hadv, collectFrom, itemDuration, passesFilters, noFilters,
    keywordBlocked, defaultItem, h1]

/-- Witness for the amended claim C3 at the concrete scenario of the claim:
one event at time 5.0, scroll speed 8 (duration 2.0), now = 6.9. -/
theorem claim_C3_overlay_window_witness :
    List.Sorted (fun a b : DanmakuItem => a.time ≤ b.time) [⟨5, "a", none, 0, 0⟩] ∧
    (0 : ℚ) < 8 ∧
    (activeOverlay true [⟨5, "a", none, 0, 0⟩] 8 noFilters (69 / 10) 0).1
      = [(⟨5, "a", none, 0, 0⟩ : DanmakuItem)].filter (overlayPred 8 noFilters (69 / 10)) :=
  ⟨by simp, by norm_num,
    claim_C3_overlay_window [⟨5, "a", none, 0, 0⟩] 8 (69 / 10) noFilters
      (by simp) (by norm_num)⟩

/-- Claim C4, amended: the cursor-based scan agrees with the scan from index 0
whenever every event strictly before the cursor is older than the
earliest-possible-visible bound `now - 16 / (speed * 0.75)`. (The 10-second
reset fallback alone does not guarantee this after a backward seek.) -/
theorem claim_C4_cursor_equivalence (data : List DanmakuItem) (speed now : ℚ)
    (fs : FilterSettings) (c : ℕ)
    (_hs : List.Sorted (fun a b : DanmakuItem => a.time ≤ b.time) data)
    (_hsp : 0 < speed) (hc : c < data.length)
    (hpre : ∀ x ∈ data.take c, x.time < now - 16 / (speed * (3 / 4))) :
    (activeOverlay true data speed fs now c).1
      = (activeOverlay true data speed fs now 0).1 := by
  have hdata : data ≠ [] := by
    intro h
    rw [h] at hc
    simp at hc
  rw [activeOverlay_eq data speed fs now c hdata,
    activeOverlay_eq data speed fs now 0 hdata]
  simp only [ite_self]
  by_cases hreset : c < data.length ∧
      (data.getD c defaultItem).time > (now - 16 / (speed * (3 / 4))) + 10
  · rw [if_pos hreset]
  · rw [if_neg hreset]
    have := advanceCursor_eq_from_prefix data (now - 16 / (speed * (3 / 4))) c hc hpre
    rw [this]

/-- Counterexample to claim C4 as stated: with speed 1 and events at times 85
and 88, a frame at now = 110 legitimately advances the persisted cursor to 1;
after a backward seek to now = 100 the cursor event (88) is not more than 10
seconds ahead of the earliest-possible-visible bound, so no reset happens,
and the visible set [88] differs from the scan-from-0 result [85, 88]: the
cursor affects the result, not only the cost. -/
theorem claim_C4_counterexample :
    (activeOverlay true [⟨85, "a", none, 0, 0⟩, ⟨88, "a", none, 0, 0⟩] 1 noFilters 110 0).2
        = 1 ∧
    (activeOverlay true [⟨85, "a", none, 0, 0⟩, ⟨88, "a", none, 0, 0⟩] 1 noFilters 100 1).1
        = [⟨88, "a", none, 0, 0⟩] ∧
    (activeOverlay true [⟨85, "a", none, 0, 0⟩, ⟨88, "a", none, 0, 0⟩] 1 noFilters 100 0).1
        = [⟨85, "a", none, 0, 0⟩, ⟨88, "a", none, 0, 0⟩] ∧
    (activeOverlay true [⟨85, "a", none, 0, 0⟩, ⟨88, "a", none, 0, 0⟩] 1 noFilters 100 1).1
      ≠ (activeOverlay true [⟨85, "a", none, 0, 0⟩, ⟨88, "a", none, 0, 0⟩] 1
          noFilters 100 0).1 := by
  have h1 : "a".length = 1 := rfl
  have hadv110 : advanceCursor [(⟨85, "a", none, 0, 0⟩ : DanmakuItem), ⟨88, "a", none, 0, 0⟩]
      (266 / 3) 0 = 1 := by
    rw [advanceCursor]
    rw [dif_pos (by norm_num [defaultItem])]
    rw [advanceCursor]
    norm_num
  have hadv100 : advanceCursor [(⟨85, "a", none, 0, 0⟩ : DanmakuItem), ⟨88, "a", none, 0, 0⟩]
      (236 / 3) 1 = 1 := by
    rw [advanceCursor]
    norm_num
  have hadv100z : advanceCursor [(⟨85, "a", none, 0, 0⟩ : DanmakuItem), ⟨88, "a", none, 0, 0⟩]
      (236 / 3) 0 = 0 := by
    rw [advanceCursor]
    rw [dif_neg (by norm_num [defaultItem])]
  refine ⟨?_, ?_, ?_, ?_⟩
  · rw [activeOverlay_eq _ _ _ _ _ (by simp)]
    norm_num [defaultItem, hadv110]
  · rw [activeOverlay_eq _ _ _ _ _ (by simp)]
    norm_num [defaultItem, hadv100, collectFrom, itemDuration, passesFilters,
      noFilters, keywordBlocked, h1]
  · rw [activeOverlay_eq _ _ _ _ _ (by simp)]
    norm_num [defaultItem, hadv100z, collectFrom, itemDuration, passesFilters,
      noFilters, keywordBlocked, h1]
  · rw [activeOverlay_eq _ _ _ _ _ (by simp), activeOverlay_eq _ _ _ _ _ (by simp)]
    norm_num [defaultItem, hadv100, hadv100z, collectFrom, itemDuration,
      passesFilters, noFilters, keywordBlocked, h1]

/-- Witness for the amended claim C4: with events at 85 and 88, speed 1 and
now = 110, a cursor at index 1 (whose prefix is entirely older than the
earliest-possible-visible bound) yields the same visible set as index 0. -/
theorem claim_C4_cursor_equivalence_witness :
    List.Sorted (fun a b : DanmakuItem => a.time ≤ b.time)
      [⟨85, "a", none, 0, 0⟩, ⟨88, "a", none, 0, 0⟩] ∧
    (0 : ℚ) < 1 ∧
    (1 < ([(⟨85, "a", none, 0, 0⟩ : DanmakuItem), ⟨88, "a", none, 0, 0⟩]).length) ∧
    (∀ x ∈ ([(⟨85, "a", none, 0, 0⟩ : DanmakuItem), ⟨88, "a", none, 0, 0⟩]).take 1,
      x.time < 110 - 16 / (1 * (3 / 4))) ∧
    (activeOverlay true [⟨85, "a", none, 0, 0⟩, ⟨88, "a", none, 0, 0⟩] 1 noFilters 110 1).1
      = (activeOverlay true [⟨85, "a", none, 0, 0⟩, ⟨88, "a", none, 0, 0⟩] 1
          noFilters 110 0).1 :=
  ⟨by norm_num [List.sorted_cons], by norm_num, by norm_num, by
      intro x hx
      simp only [List.take_succ, List.take_zero, List.nil_append] at hx
      simp only [List.getElem?_cons_zero, Option.toList_some, List.mem_singleton] at hx
      rw [hx]
      norm_num,
    claim_C4_cursor_equivalence _ 1 110 noFilters 1 (by norm_num [List.sorted_cons])
      (by norm_num) (by norm_num) (by
        intro x hx
        simp only [List.take_succ, List.take_zero, List.nil_append] at hx
        simp only [List.getElem?_cons_zero, Option.toList_some, List.mem_singleton] at hx
        rw [hx]
        norm_num)⟩

/-- Duration formula following the spec wording of claim C9, amended only in
replacing the stated exact `(clampedLen - 1)/9` by the code constant
`(clampedLen - 1) * 0.1111`: clamp the text length to [1, 10], take intrinsic
factor `1 - 0.25 * ((clampedLen - 1) * 0.1111)`, and return
`16 / (speed * factor)`. -/
def amendedDurationSpec (speed : ℚ) (len : ℕ) : ℚ :=
  let clamped : ℕ := max 1 (min 10 len)
  16 / (speed * (1 - (1 / 4) * (((clamped : ℚ) - 1) * (1111 / 10000))))

lemma clamp_eq (len : ℕ) :
    (if (if len = 0 then 1 else len) > 10 then 10
      else if (if len = 0 then 1 else len) < 1 then 1
      else (if len = 0 then 1 else len)) = max 1 (min 10 len) := by
  split_ifs <;> omega

/-- Counterexample to claim C9 as stated: for a 10-character event at speed 1
the rendered duration is 16 / 0.750025 = 640000/30001, while the claimed
formula with factor 1 − 0.25 × (clampedLen − 1)/9 gives 16 / 0.75 = 64/3;
these differ, so the stated equality is not exact. -/
theorem claim_C9_counterexample :
    ("aaaaaaaaaa".length = 10) ∧
    itemDuration 1 ⟨0, "aaaaaaaaaa", none, 0, 0⟩
      ≠ 16 / ((1 : ℚ) * (1 - (1 / 4) * (((10 : ℚ) - 1) / 9))) := by
  have h1 : "aaaaaaaaaa".length = 10 := rfl
  exact ⟨h1, by norm_num [itemDuration, h1]⟩

/-- Claim C9, amended: the rendered duration equals
`16 / (speed * (1 - 0.25 * ((clampedLen - 1) * 0.1111)))` with the content
length clamped to [1, 10]; the constant 0.1111 approximates but is not
exactly 1/9. -/
theorem claim_C9_duration_formula (speed : ℚ) (d : DanmakuItem) :
    itemDuration speed d = amendedDurationSpec speed d.content.length := by
  show 16 / (speed * (1 -
      ((((if (if d.content.length = 0 then 1 else d.content.length) > 10 then 10
          else if (if d.content.length = 0 then 1 else d.content.length) < 1 then 1
          else (if d.content.length = 0 then 1 else d.content.length)) : ℕ) : ℚ) - 1)
        * (1111 / 10000) * (1 / 4)))
    = 16 / (speed * (1 - 1 / 4 * ((((max 1 (min 10 d.content.length) : ℕ) : ℚ) - 1)
        * (1111 / 10000))))
  rw [clamp_eq d.content.length]
  ring

/-- Sidebar chat filter predicate of `visibleChatList`: the event has arrived
(`time ≤ currentTime`) and passes the medal and keyword rules. -/
def chatPred (t : ℚ) (fs : FilterSettings) (d : DanmakuItem) : Bool :=
  !(decide (d.time > t)) && passesFilters fs d

/-- Sidebar chat list `visibleChatList`: filter by time and the blocking
rules, and when more than 200 events pass keep only the last 200
(`filtered.slice(-200)`). -/
def visibleChatList (data : List DanmakuItem) (t : ℚ) (fs : FilterSettings) :
    List DanmakuItem :=
  let filtered := data.filter (chatPred t fs)
  if 200 < filtered.length then filtered.drop (filtered.length - 200) else filtered

/-- Claim C10: the chat list always holds at most 200 events, and it equals
the events with `time ≤ currentTime` passing the medal and keyword filters,
truncated to the last 200 of them whenever more pass. -/
theorem claim_C10_chat_list (data : List DanmakuItem) (t : ℚ) (fs : FilterSettings) :
    (visibleChatList data t fs).length ≤ 200 ∧
    visibleChatList data t fs
      = (data.filter (chatPred t fs)).drop
          ((data.filter (chatPred t fs)).length - 200) := by
  simp only [visibleChatList]
  by_cases h : 200 < (data.filter (chatPred t fs)).length
  · rw [if_pos h]
    refine ⟨?_, rfl⟩
    rw [List.length_drop]
    omega
  · rw [if_neg h]
    push_neg at h
    refine ⟨h, ?_⟩
    rw [show (data.filter (chatPred t fs)).length - 200 = 0 by omega, List.drop_zero]

/-- Smoothing clock state of the DanmakuLayer animation loop: the last
reported video time, its wall-clock timestamp in milliseconds, and the
smoothed output. -/
structure ClockState where
  lastVideoTime : ℚ
  lastUpdate : ℚ
  smooth : ℚ
deriving DecidableEq

/-- One animation tick while playing: if the reported video time changed
since the last tick, the base is resynchronised and the output snaps to the
sample; otherwise the output extrapolates by elapsed wall milliseconds / 1000
times the playback rate. -/
def tick (s : ClockState) (now vTime rate : ℚ) : ClockState :=
  if vTime ≠ s.lastVideoTime then ⟨vTime, now, vTime⟩
  else ⟨s.lastVideoTime, s.lastUpdate, vTime + ((now - s.lastUpdate) / 1000) * rate⟩

/-- While paused, the effect sets the smoothed time to the raw current time
and rebases the last sample (no extrapolation). -/
def pausedClock (s : ClockState) (currentTime : ℚ) : ClockState :=
  ⟨currentTime, s.lastUpdate, currentTime⟩

/-- Counterexample to claim C8 as stated: a backward sample (raw position 0.5
after a base of 1.0) has not advanced, yet the output is the snapped raw
position 0.5 rather than the claimed extrapolation 1.0 + 0.5 × 1 = 1.5: the
code snaps on any change of the raw position, not only on advancement. -/
theorem claim_C8_counterexample :
    ¬ ((1 : ℚ) / 2 > 1) ∧
    (tick ⟨1, 0, 1⟩ 500 (1 / 2) 1).smooth = 1 / 2 ∧
    (tick ⟨1, 0, 1⟩ 500 (1 / 2) 1).smooth ≠ 1 + ((500 - 0) / 1000) * 1 := by
  norm_num [tick]

/-- Claim C8, amended: on a tick while playing the smoothed output snaps
exactly to the raw position whenever it changed (in either direction) since
the last tick, and otherwise equals the last sampled position plus elapsed
wall seconds times the playback rate; on the claim scenario (raw samples 1.0
at t = 0 ms and t = 500 ms, then 2.0 at t = 1000 ms, rate 1) the output is
1.5 at t = 500 and exactly 2.0 at t = 1000; while paused the output equals
the raw position with no extrapolation. -/
theorem claim_C8_clock_snap :
    (∀ (s : ClockState) (now vTime rate : ℚ), vTime ≠ s.lastVideoTime →
      (tick s now vTime rate).smooth = vTime) ∧
    (∀ (s : ClockState) (now rate : ℚ),
      (tick s now s.lastVideoTime rate).smooth
        = s.lastVideoTime + ((now - s.lastUpdate) / 1000) * rate) ∧
    (tick ⟨1, 0, 1⟩ 500 1 1).smooth = 3 / 2 ∧
    (tick (tick ⟨1, 0, 1⟩ 500 1 1) 1000 2 1).smooth = 2 ∧
    (∀ (s : ClockState) (raw : ℚ), (pausedClock s raw).smooth = raw) := by
  refine ⟨?_, ?_, ?_, ?_, ?_⟩
  · intro s now vTime rate h
    simp [tick, h]
  · intro s now rate
    simp [tick]
  · norm_num [tick]
  · norm_num [tick]
  · intro s raw
    rfl

/-- Witness for the amended claim C8 at a changed sample: raw position 3
differs from the base 1, so the output snaps exactly to 3. -/
theorem claim_C8_clock_snap_witness :
    ((3 : ℚ) ≠ 1) ∧ (tick ⟨1, 0, 1⟩ 700 3 1).smooth = 3 :=
  ⟨by norm_num, claim_C8_clock_snap.1 ⟨1, 0, 1⟩ 700 3 1 (by norm_num)⟩

/-- Parsed recording file attributes used by the session grouping: the
declared title, the file start timestamp in milliseconds from the file name,
and the duration in seconds scanned from the sidecar XML (carried to speak
about the end of a file; the grouping code itself never reads it). -/
structure StreamFile where
  title : String
  timestamp : ℤ
  xmlDuration : ℚ
deriving DecidableEq

/-- Session grouping loop of `processRecordingFiles` over the
timestamp-ordered files of one room: the running session keeps the title of
its first file and an `endTime` equal to the timestamp of the last added
file; a file starts a new session when its title differs from the session
title or its timestamp exceeds the session `endTime` by more than
3600000 ms. -/
def groupAux : String → ℤ → List StreamFile → List StreamFile → List (List StreamFile)
  | _, _, cur, [] => [cur.reverse]
  | title, endTime, cur, f :: rest =>
    if f.title ≠ title ∨ f.timestamp - endTime > 3600000 then
      cur.reverse :: groupAux f.title f.timestamp [f] rest
    else
      groupAux title f.timestamp (f :: cur) rest

/-- Sessions built from the ordered file list of one room. -/
def groupSessions : List StreamFile → List (List StreamFile)
  | [] => []
  | f :: rest => groupAux f.title f.timestamp [f] rest

/-- Session-break test following the amended claim wording: the next file
starts a new session exactly when its declared title differs from the
previous file title, or its start timestamp exceeds the previous file start
timestamp by more than 3600 seconds. -/
def sessionBreak (prev f : StreamFile) : Bool :=
  decide (f.title ≠ prev.title) || decide (f.timestamp - prev.timestamp > 3600000)

/-- Grouping of a list into maximal runs of consecutive elements, split at
exactly the adjacent pairs where `brk` holds. -/
def groupByAdjAux (brk : StreamFile → StreamFile → Bool) :
    StreamFile → List StreamFile → List StreamFile → List (List StreamFile)
  | _, cur, [] => [cur.reverse]
  | prev, cur, f :: rest =>
    if brk prev f then cur.reverse :: groupByAdjAux brk f [f] rest
    else groupByAdjAux brk f (f :: cur) rest

def groupByAdj (brk : StreamFile → StreamFile → Bool) :
    List StreamFile → List (List StreamFile)
  | [] => []
  | f :: rest => groupByAdjAux brk f [f] rest

lemma groupAux_eq_adj :
    ∀ (rest : List StreamFile) (prev : StreamFile) (cur : List StreamFile),
      groupAux prev.title prev.timestamp cur rest
        = groupByAdjAux sessionBreak prev cur rest := by
  intro rest
  induction rest with
  | nil => intro prev cur; rfl
  | cons f rs ih =>
    intro prev cur
    unfold groupAux groupByAdjAux
    by_cases hbrk : f.title ≠ prev.title ∨ f.timestamp - prev.timestamp > 3600000
    · rw [if_pos hbrk, if_pos (by
        simp only [sessionBreak, Bool.or_eq_true, decide_eq_true_eq]
        exact hbrk)]
      rw [ih f [f]]
    · rw [if_neg hbrk, if_neg (by
        simp only [sessionBreak, Bool.or_eq_true, decide_eq_true_eq]
        exact hbrk)]
      push_neg at hbrk
      have h1 : f.title = prev.title := hbrk.1
      rw [← h1]
      exact ih f (f :: cur)

/-- Counterexample to claim C7 as stated: two files with equal titles where
the second starts 3600.001 s after the first file START but only about
2600 s after the first file END (start plus the scanned XML duration of
1000 s). By the claimed rule (gap measured from the file end) they belong to
one session; the code starts a new session because it measures the gap
between start timestamps. -/
theorem claim_C7_counterexample :
    (⟨"t", 0, 1000⟩ : StreamFile).title = (⟨"t", 3600001, 0⟩ : StreamFile).title ∧
    (((⟨"t", 3600001, 0⟩ : StreamFile).timestamp : ℚ)
        - (((⟨"t", 0, 1000⟩ : StreamFile).timestamp : ℚ)
          + (⟨"t", 0, 1000⟩ : StreamFile).xmlDuration * 1000)) ≤ 3600000 ∧
    groupSessions [⟨"t", 0, 1000⟩, ⟨"t", 3600001, 0⟩]
      = [[⟨"t", 0, 1000⟩], [⟨"t", 3600001, 0⟩]] := by
  refine ⟨rfl, by norm_num, ?_⟩
  norm_num [groupSessions, groupAux]

/-- Claim C7, amended: consecutive files of one room are placed in the same
session exactly when the declared title is unchanged and the next file START
timestamp is at most 3600 s after the previous file START timestamp (the
session `endTime` tracks the last file start, not its media end): the code
grouping equals splitting the ordered list at exactly the adjacent pairs
that violate this rule. -/
theorem claim_C7_session_grouping (files : List StreamFile) :
    groupSessions files = groupByAdj sessionBreak files := by
  cases files with
  | nil => rfl
  | cons f rest => exact groupAux_eq_adj rest f [f]

/-- First-fit track search of the track loop in `parseDanmakuXml`: scan the
16 tracks in index order and return the first whose free-at time is at most
the event time. -/
def findFirstFree (free : Fin 16 → ℚ) (time : ℚ) : Option (Fin 16) :=
  (List.finRange 16).find? fun l => decide (free l ≤ time)

/-- Fallback of the track loop: the first track with the smallest free-at
time (the source starts from minTime = Infinity, so the scan always selects
a track and earlier indices win ties). -/
def minFreeLane (free : Fin 16 → ℚ) : Fin 16 :=
  (List.finRange 16).foldl (fun best l => if free l < free best then l else best) 0

/-- Track choice for one event: first fit, otherwise the least-loaded track.
(The final `item.timestamp % 16` fallback of the source is unreachable, since
the minimum scan over 16 tracks always selects one.) -/
def pickLane (free : Fin 16 → ℚ) (time : ℚ) : Fin 16 :=
  match findFirstFree free time with
  | some l => l
  | none => minFreeLane free

/-- Tracks assigned to a list of event times: each event takes `pickLane` of
the current free-at map, and its track is then held busy until
`time + 3.0`. -/
def laneRun : List ℚ → (Fin 16 → ℚ) → List (Fin 16)
  | [], _ => []
  | t :: rest, free =>
    pickLane free t :: laneRun rest (Function.update free (pickLane free t) (t + 3))

/-- Free-at map after processing a list of event times. -/
def freeAfter : List ℚ → (Fin 16 → ℚ) → (Fin 16 → ℚ)
  | [], free => free
  | t :: rest, free => freeAfter rest (Function.update free (pickLane free t) (t + 3))

/-- In-place `trackIndex` assignment of `parseDanmakuXml` over the sorted
items. -/
def assignTracks : List DanmakuItem → (Fin 16 → ℚ) → List DanmakuItem
  | [], _ => []
  | d :: rest, free =>
    { d with trackIndex := (pickLane free d.time).val }
      :: assignTracks rest (Function.update free (pickLane free d.time) (d.time + 3))

/-- Decode pipeline tail of `parseDanmakuXml`: sort the raw items ascending
by time (`rawItems.sort((a, b) => a.time - b.time)`, modelled by a merge sort
on the same key) and assign tracks starting from the all-free map. -/
def decodePipeline (raw : List DanmakuItem) : List DanmakuItem :=
  assignTracks (raw.mergeSort fun a b => decide (a.time ≤ b.time)) (fun _ => 0)

lemma assignTracks_map_time :
    ∀ (l : List DanmakuItem) (free : Fin 16 → ℚ),
      (assignTracks l free).map DanmakuItem.time = l.map DanmakuItem.time := by
  intro l
  induction l with
  | nil => intro free; rfl
  | cons d rest ih =>
    intro free
    simp only [assignTracks, List.map_cons]
    rw [ih]

/-- Claim C6 (sort invariant): for any input record order, the decode
pipeline output is non-decreasingly ordered by `time` (the defensive sort
happens before lane assignment, which preserves order and times). -/
theorem claim_C6_sort_invariant (raw : List DanmakuItem) :
    List.Sorted (fun a b : DanmakuItem => a.time ≤ b.time) (decodePipeline raw) := by
  have hp := @List.sorted_mergeSort DanmakuItem
    (fun a b : DanmakuItem => decide (a.time ≤ b.time))
    (fun a b c h1 h2 => by
      simp only [decide_eq_true_eq] at h1 h2 ⊢
      exact le_trans h1 h2)
    (fun a b => by
      simp only [Bool.or_eq_true, decide_eq_true_eq]
      exact le_total a.time b.time)
    raw
  have hs : List.Sorted (fun a b : DanmakuItem => a.time ≤ b.time)
      (raw.mergeSort fun a b => decide (a.time ≤ b.time)) :=
    hp.imp fun h => by simpa using h
  have h1 : List.Pairwise (fun a b : ℚ => a ≤ b)
      ((raw.mergeSort fun a b => decide (a.time ≤ b.time)).map DanmakuItem.time) :=
    List.pairwise_map.mpr hs
  have h2 : List.Pairwise (fun a b : ℚ => a ≤ b)
      ((decodePipeline raw).map DanmakuItem.time) := by
    unfold decodePipeline
    rw [assignTracks_map_time]
    exact h1
  exact List.pairwise_map.mp h2

lemma countP_ge_of_witnesses (P : List (ℚ × Fin 16)) (pred : ℚ × Fin 16 → Bool)
    (w : Fin 16 → ℚ × Fin 16)
    (hw : ∀ l, w l ∈ P ∧ (w l).2 = l ∧ pred (w l) = true) :
    16 ≤ P.countP pred := by
  have hinj : Function.Injective w := by
    intro a b hab
    have ha := (hw a).2.1
    have hb := (hw b).2.1
    rw [← ha, ← hb, hab]
  have hsub : (Finset.univ.image w) ⊆ (P.filter pred).toFinset := by
    intro x hx
    rw [Finset.mem_image] at hx
    obtain ⟨l, _, rfl⟩ := hx
    rw [List.mem_toFinset, List.mem_filter]
    exact ⟨(hw l).1, (hw l).2.2⟩
  have h1 : (Finset.univ.image w).card = 16 := by
    rw [Finset.card_image_of_injective _ hinj, Finset.card_univ, Fintype.card_fin]
  calc (16 : ℕ) = (Finset.univ.image w).card := h1.symm
    _ ≤ (P.filter pred).toFinset.card := Finset.card_le_card hsub
    _ ≤ (P.filter pred).length := List.toFinset_card_le _
    _ = P.countP pred := (List.countP_eq_length_filter pred P).symm

lemma laneRun_sep :
    ∀ (ts : List ℚ) (P : List (ℚ × Fin 16)) (free : Fin 16 → ℚ),
      List.Sorted (fun a b : ℚ => a ≤ b) ts →
      (∀ p ∈ P, ∀ t ∈ ts, p.1 ≤ t) →
      (∀ p ∈ P, p.1 + 3 ≤ free p.2) →
      (∀ l, free l = 0 ∨ ∃ p ∈ P, p.2 = l ∧ free l = p.1 + 3) →
      (∀ t ∈ ts, 0 ≤ t) →
      (∀ k, k < ts.length →
        P.countP (fun p => decide (ts.getD k 0 < p.1 + 3))
          + (ts.take k).countP (fun s => decide (ts.getD k 0 < s + 3)) ≤ 15) →
      (∀ p ∈ P, ∀ k, k < ts.length → ts.getD k 0 < p.1 + 3 →
        (laneRun ts free).getD k 0 ≠ p.2) ∧
      (∀ i j, i < j → j < ts.length → ts.getD j 0 < ts.getD i 0 + 3 →
        (laneRun ts free).getD i 0 ≠ (laneRun ts free).getD j 0) := by
  intro ts
  induction ts with
  | nil =>
    intro P free _ _ _ _ _ _
    refine ⟨fun p _ k hk => absurd hk (by simp), fun i j _ hj => absurd hj (by simp)⟩
  | cons t rest ih =>
    intro P free hsort hPle hfree hwit hnn hconc
    obtain ⟨hhead, hrest⟩ := List.sorted_cons.mp hsort
    -- First fit always succeeds: otherwise all 16 tracks carry a distinct
    -- event still active at time t, contradicting the concurrency bound.
    have hff : ∃ l, findFirstFree free t = some l := by
      rcases hcase : findFirstFree free t with _ | l
      · exfalso
        have hnone := List.find?_eq_none.mp hcase
        have hall : ∀ l : Fin 16, ∃ p, p ∈ P ∧ p.2 = l ∧ decide (t < p.1 + 3) = true := by
          intro l
          have hgt : t < free l := by
            have := hnone l (List.mem_finRange l)
            simp only [decide_eq_true_eq] at this
            exact lt_of_not_le this
          rcases hwit l with h0 | ⟨p, hpP, hpl, hpf⟩
          · exfalso
            rw [h0] at hgt
            exact absurd (hnn t (by simp)) (not_le.mpr hgt)
          · refine ⟨p, hpP, hpl, ?_⟩
            rw [decide_eq_true_eq]
            rw [hpf] at hgt
            exact hgt
        choose w hw using hall
        have h16 := countP_ge_of_witnesses P (fun p => decide (t < p.1 + 3)) w hw
        have hcon0 := hconc 0 (by simp)
        simp only [List.getD_cons_zero, List.take_zero, List.countP_nil, add_zero] at hcon0
        omega
      · exact ⟨l, rfl⟩
    obtain ⟨l, hffl⟩ := hff
    have hlfree : free l ≤ t := by
      have := List.find?_some hffl
      simpa using this
    have hpick : pickLane free t = l := by
      unfold pickLane
      rw [hffl]
    have hrun : laneRun (t :: rest) free
        = l :: laneRun rest (Function.update free l (t + 3)) := by
      rw [show laneRun (t :: rest) free
            = pickLane free t
              :: laneRun rest (Function.update free (pickLane free t) (t + 3)) from rfl,
        hpick]
    -- Invariants for the recursive call.
    have hPle2 : ∀ p ∈ P ++ [(t, l)], ∀ s ∈ rest, p.1 ≤ s := by
      intro p hp s hs
      rcases List.mem_append.mp hp with h | h
      · exact hPle p h s (by simp [hs])
      · simp only [List.mem_singleton] at h
        rw [h]
        exact hhead s hs
    have hfree2 : ∀ p ∈ P ++ [(t, l)], p.1 + 3 ≤ Function.update free l (t + 3) p.2 := by
      intro p hp
      rcases List.mem_append.mp hp with h | h
      · by_cases hpl : p.2 = l
        · rw [hpl, Function.update_same]
          have : p.1 ≤ t := hPle p h t (by simp)
          linarith
        · rw [Function.update_noteq hpl]
          exact hfree p h
      · simp only [List.mem_singleton] at h
        rw [h, Function.update_same]
    have hwit2 : ∀ l', Function.update free l (t + 3) l' = 0 ∨
        ∃ p ∈ P ++ [(t, l)], p.2 = l' ∧ Function.update free l (t + 3) l' = p.1 + 3 := by
      intro l'
      by_cases hl' : l' = l
      · subst hl'
        right
        exact ⟨(t, l'), by simp, rfl, Function.update_same _ _ _⟩
      · rw [Function.update_noteq hl']
        rcases hwit l' with h0 | ⟨p, hpP, hpl, hpf⟩
        · exact Or.inl h0
        · exact Or.inr ⟨p, List.mem_append_left _ hpP, hpl, hpf⟩
    have hnn2 : ∀ s ∈ rest, 0 ≤ s := fun s hs => hnn s (by simp [hs])
    have hconc2 : ∀ k, k < rest.length →
        (P ++ [(t, l)]).countP (fun p => decide (rest.getD k 0 < p.1 + 3))
          + (rest.take k).countP (fun s => decide (rest.getD k 0 < s + 3)) ≤ 15 := by
      intro k hk
      have hck := hconc (k + 1) (by simpa using Nat.succ_lt_succ hk)
      simp only [List.getD_cons_succ] at hck
      rw [show (t :: rest).take (k + 1) = t :: rest.take k from rfl] at hck
      rw [List.countP_cons] at hck
      rw [List.countP_append]
      rw [show List.countP (fun p => decide (rest.getD k 0 < p.1 + 3)) [(t, l)]
            = if decide (rest.getD k 0 < t + 3) = true then 1 else 0 by
          simp [List.countP_cons]]
      omega
    have ihres := ih (P ++ [(t, l)]) (Function.update free l (t + 3))
      hrest hPle2 hfree2 hwit2 hnn2 hconc2
    constructor
    · intro p hp k hk hov
      cases k with
      | zero =>
        simp only [List.getD_cons_zero] at hov
        rw [hrun, List.getD_cons_zero]
        intro heq
        have := hfree p hp
        rw [← heq] at this
        linarith
      | succ k =>
        simp only [List.getD_cons_succ] at hov ⊢
        rw [hrun, List.getD_cons_succ]
        exact ihres.1 p (List.mem_append_left _ hp) k (by simpa using hk) hov
    · intro i j hij hj hov
      cases i with
      | zero =>
        cases j with
        | zero => omega
        | succ j =>
          simp only [List.getD_cons_zero, List.getD_cons_succ] at hov
          rw [hrun, List.getD_cons_zero, List.getD_cons_succ]
          have := ihres.1 (t, l) (List.mem_append_right _ (by simp)) j
            (by simpa using hj) hov
          exact fun heq => this heq.symm
      | succ i =>
        cases j with
        | zero => omega
        | succ j =>
          simp only [List.getD_cons_succ] at hov ⊢
          rw [hrun, List.getD_cons_succ, List.getD_cons_succ]
          exact ihres.2 i j (by omega) (by simpa using hj) hov

lemma assignTracks_trackIndex :
    ∀ (l : List DanmakuItem) (free : Fin 16 → ℚ) (k : ℕ), k < l.length →
      ((assignTracks l free).getD k defaultItem).trackIndex
        = ((laneRun (l.map DanmakuItem.time) free).getD k 0).val := by
  intro l
  induction l with
  | nil => intro free k hk; simp at hk
  | cons d rest ih =>
    intro free k hk
    cases k with
    | zero =>
      rw [show assignTracks (d :: rest) free
            = { d with trackIndex := (pickLane free d.time).val }
              :: assignTracks rest
                  (Function.update free (pickLane free d.time) (d.time + 3)) from rfl]
      rw [show laneRun ((d :: rest).map DanmakuItem.time) free
            = pickLane free d.time
              :: laneRun (rest.map DanmakuItem.time)
                  (Function.update free (pickLane free d.time) (d.time + 3)) from rfl]
      rfl
    | succ k =>
      rw [show assignTracks (d :: rest) free
            = { d with trackIndex := (pickLane free d.time).val }
              :: assignTracks rest
                  (Function.update free (pickLane free d.time) (d.time + 3)) from rfl]
      rw [show laneRun ((d :: rest).map DanmakuItem.time) free
            = pickLane free d.time
              :: laneRun (rest.map DanmakuItem.time)
                  (Function.update free (pickLane free d.time) (d.time + 3)) from rfl]
      rw [List.getD_cons_succ, List.getD_cons_succ]
      exact ih _ k (by simpa using hk)

lemma getD_map_time (l : List DanmakuItem) (k : ℕ) (hk : k < l.length) :
    (l.map DanmakuItem.time).getD k 0 = (l.getD k defaultItem).time := by
  rw [List.getD_eq_getElem _ _ (by simpa using hk), List.getD_eq_getElem _ _ hk]
  exact List.getElem_map DanmakuItem.time

lemma freeAfter_append :
    ∀ (l1 l2 : List ℚ) (f : Fin 16 → ℚ),
      freeAfter (l1 ++ l2) f = freeAfter l2 (freeAfter l1 f) := by
  intro l1
  induction l1 with
  | nil => intro l2 f; rfl
  | cons t r ih =>
    intro l2 f
    rw [show ((t :: r) ++ l2) = t :: (r ++ l2) from rfl]
    rw [show freeAfter (t :: (r ++ l2)) f
          = freeAfter (r ++ l2) (Function.update f (pickLane f t) (t + 3)) from rfl]
    rw [show freeAfter (t :: r) f
          = freeAfter r (Function.update f (pickLane f t) (t + 3)) from rfl]
    exact ih l2 _

lemma laneRun_getD_pick :
    ∀ (ts : List ℚ) (f : Fin 16 → ℚ) (k : ℕ), k < ts.length →
      (laneRun ts f).getD k 0 = pickLane (freeAfter (ts.take k) f) (ts.getD k 0) := by
  intro ts
  induction ts with
  | nil => intro f k hk; simp at hk
  | cons t rest ih =>
    intro f k hk
    cases k with
    | zero =>
      rw [show laneRun (t :: rest) f
            = pickLane f t
              :: laneRun rest (Function.update f (pickLane f t) (t + 3)) from rfl]
      rfl
    | succ k =>
      rw [show laneRun (t :: rest) f
            = pickLane f t
              :: laneRun rest (Function.update f (pickLane f t) (t + 3)) from rfl]
      rw [List.getD_cons_succ, List.getD_cons_succ]
      rw [show (t :: rest).take (k + 1) = t :: rest.take k from rfl]
      rw [show freeAfter (t :: rest.take k) f
            = freeAfter (rest.take k) (Function.update f (pickLane f t) (t + 3)) from rfl]
      exact ih _ k (by simpa using hk)

lemma freeAfter_busy (ts : List ℚ) (f : Fin 16 → ℚ) (k : ℕ) (hk : k < ts.length) :
    freeAfter (ts.take (k + 1)) f ((laneRun ts f).getD k 0) = ts.getD k 0 + 3 := by
  rw [laneRun_getD_pick ts f k hk]
  rw [List.take_succ, List.getElem?_eq_getElem hk]
  rw [show (some (ts[k])).toList = [ts[k]] from rfl]
  rw [freeAfter_append]
  rw [show freeAfter [ts[k]] (freeAfter (ts.take k) f)
        = Function.update (freeAfter (ts.take k) f)
            (pickLane (freeAfter (ts.take k) f) (ts[k])) ((ts[k]) + 3) from rfl]
  rw [List.getD_eq_getElem ts 0 hk]
  exact Function.update_same _ _ _

lemma countP_take_le (p : ℚ → Bool) (l : List ℚ) (n : ℕ) :
    (l.take n).countP p ≤ l.countP p := by
  conv_rhs => rw [← List.take_append_drop n l]
  rw [List.countP_append]
  omega

lemma active_prefix_bound (ts : List ℚ) (k : ℕ) (hk : k < ts.length)
    (hsort : List.Sorted (fun a b : ℚ => a ≤ b) ts)
    (hc : ts.countP (fun s => decide (s ≤ ts.getD k 0 ∧ ts.getD k 0 < s + 3)) ≤ 16) :
    (ts.take k).countP (fun s => decide (ts.getD k 0 < s + 3)) ≤ 15 := by
  have heq : (ts.take k).countP (fun s => decide (ts.getD k 0 < s + 3))
      = (ts.take k).countP (fun s => decide (s ≤ ts.getD k 0 ∧ ts.getD k 0 < s + 3)) := by
    apply List.countP_congr
    intro s hs
    obtain ⟨i, him, hieq⟩ := List.mem_take_iff_getElem.mp hs
    have hik : i < k := lt_of_lt_of_le him (min_le_left _ _)
    have hile : i < ts.length := lt_of_lt_of_le him (min_le_right _ _)
    have hrel : ts[i] ≤ ts[k] := by
      have := @List.Sorted.rel_get_of_lt ℚ (fun a b : ℚ => a ≤ b) ts hsort
        ⟨i, hile⟩ ⟨k, hk⟩ hik
      simpa using this
    rw [← hieq]
    rw [List.getD_eq_getElem ts 0 hk]
    simp only [decide_eq_true_eq]
    exact ⟨fun h => ⟨hrel, h⟩, fun h => h.2⟩
  rw [heq]
  have hone : decide ((ts[k]) ≤ ts.getD k 0 ∧ ts.getD k 0 < (ts[k]) + 3)
      = true := by
    rw [List.getD_eq_getElem ts 0 hk]
    simp only [decide_eq_true_eq]
    exact ⟨le_refl _, by linarith⟩
  have h2 : (ts.take (k + 1)).countP
        (fun s => decide (s ≤ ts.getD k 0 ∧ ts.getD k 0 < s + 3))
      = (ts.take k).countP (fun s => decide (s ≤ ts.getD k 0 ∧ ts.getD k 0 < s + 3))
        + 1 := by
    rw [List.take_succ, List.getElem?_eq_getElem hk]
    rw [show (some (ts[k])).toList = [ts[k]] from rfl]
    rw [List.countP_append, List.countP_cons, List.countP_nil, hone]
    simp
  have h3 := countP_take_le (fun s => decide (s ≤ ts.getD k 0 ∧ ts.getD k 0 < s + 3))
    ts (k + 1)
  omega

/-- Claim C5 (lane assignment no-overlap-when-possible): for a time-sorted
event sequence with nonnegative times in which at most 16 events are
simultaneously active — each event occupying its lane for exactly 3.0 seconds
from its time, so at each event instant at most 16 events satisfy
`time ≤ instant < time + 3` — the track assignment of `parseDanmakuXml` gives
no two simultaneously-active events the same lane, and each assigned lane is
held busy (its free-at entry) until exactly `event.time + 3.0`. -/
theorem claim_C5_lane_assignment (items : List DanmakuItem)
    (hsort : List.Sorted (fun a b : DanmakuItem => a.time ≤ b.time) items)
    (hnn : ∀ d ∈ items, 0 ≤ d.time)
    (hconc : ∀ k, k < items.length →
      items.countP (fun e => decide (e.time ≤ (items.getD k defaultItem).time
        ∧ (items.getD k defaultItem).time < e.time + 3)) ≤ 16) :
    (∀ i j, i < j → j < items.length →
      (items.getD j defaultItem).time < (items.getD i defaultItem).time + 3 →
      ((assignTracks items (fun _ => 0)).getD i defaultItem).trackIndex
        ≠ ((assignTracks items (fun _ => 0)).getD j defaultItem).trackIndex) ∧
    (∀ k, k < items.length →
      freeAfter ((items.map DanmakuItem.time).take (k + 1)) (fun _ => 0)
          ((laneRun (items.map DanmakuItem.time) (fun _ => 0)).getD k 0)
        = (items.getD k defaultItem).time + 3) := by
  set ts := items.map DanmakuItem.time with hts
  have hlen : ts.length = items.length := by rw [hts]; exact List.length_map _ _
  have hsort2 : List.Sorted (fun a b : ℚ => a ≤ b) ts := List.pairwise_map.mpr hsort
  have hnn2 : ∀ t ∈ ts, 0 ≤ t := by
    intro t ht
    rw [hts] at ht
    obtain ⟨d, hd, rfl⟩ := List.mem_map.mp ht
    exact hnn d hd
  have hconc2 : ∀ k, k < ts.length →
      (([] : List (ℚ × Fin 16)).countP (fun p => decide (ts.getD k 0 < p.1 + 3))
        + (ts.take k).countP (fun s => decide (ts.getD k 0 < s + 3))) ≤ 15 := by
    intro k hk
    rw [List.countP_nil, Nat.zero_add]
    apply active_prefix_bound ts k hk hsort2
    have hck := hconc k (by omega)
    rw [hts, List.countP_map]
    rw [show ts.getD k 0 = (items.getD k defaultItem).time from
      getD_map_time items k (by omega)]
    exact le_trans (le_of_eq (List.countP_congr (fun e _ => by
      simp only [Function.comp_apply]))) hck
  have main := laneRun_sep ts [] (fun _ => 0) hsort2 (by simp) (by simp)
    (fun l => Or.inl rfl) hnn2 hconc2
  constructor
  · intro i j hij hj hov
    have hi : i < items.length := lt_trans hij hj
    rw [assignTracks_trackIndex items _ i hi, assignTracks_trackIndex items _ j hj]
    intro heq
    have hlne := main.2 i j hij (by omega) (by
      rw [getD_map_time items j hj, getD_map_time items i hi]
      exact hov)
    exact hlne (Fin.val_injective heq)
  · intro k hk
    rw [freeAfter_busy ts (fun _ => 0) k (by omega)]
    rw [getD_map_time items k hk]

/-- Witness for claim C5: two events at times 0 and 1 (simultaneously active,
far under the 16-lane budget) receive distinct tracks. -/
theorem claim_C5_lane_assignment_witness :
    List.Sorted (fun a b : DanmakuItem => a.time ≤ b.time)
      [⟨0, "a", none, 0, 0⟩, ⟨1, "a", none, 0, 0⟩] ∧
    (∀ d ∈ [(⟨0, "a", none, 0, 0⟩ : DanmakuItem), ⟨1, "a", none, 0, 0⟩], 0 ≤ d.time) ∧
    (∀ k, k < ([(⟨0, "a", none, 0, 0⟩ : DanmakuItem), ⟨1, "a", none, 0, 0⟩]).length →
      ([(⟨0, "a", none, 0, 0⟩ : DanmakuItem), ⟨1, "a", none, 0, 0⟩]).countP
        (fun e => decide (e.time
            ≤ (([(⟨0, "a", none, 0, 0⟩ : DanmakuItem),
                ⟨1, "a", none, 0, 0⟩]).getD k defaultItem).time
          ∧ (([(⟨0, "a", none, 0, 0⟩ : DanmakuItem),
                ⟨1, "a", none, 0, 0⟩]).getD k defaultItem).time < e.time + 3)) ≤ 16) ∧
    (∀ i j, i < j →
      j < ([(⟨0, "a", none, 0, 0⟩ : DanmakuItem), ⟨1, "a", none, 0, 0⟩]).length →
      (([(⟨0, "a", none, 0, 0⟩ : DanmakuItem),
          ⟨1, "a", none, 0, 0⟩]).getD j defaultItem).time
        < (([(⟨0, "a", none, 0, 0⟩ : DanmakuItem),
            ⟨1, "a", none, 0, 0⟩]).getD i defaultItem).time + 3 →
      ((assignTracks [⟨0, "a", none, 0, 0⟩, ⟨1, "a", none, 0, 0⟩]
          (fun _ => 0)).getD i defaultItem).trackIndex
        ≠ ((assignTracks [⟨0, "a", none, 0, 0⟩, ⟨1, "a", none, 0, 0⟩]
            (fun _ => 0)).getD j defaultItem).trackIndex) := by
  have h1 : List.Sorted (fun a b : DanmakuItem => a.time ≤ b.time)
      [⟨0, "a", none, 0, 0⟩, ⟨1, "a", none, 0, 0⟩] := by
    norm_num [List.sorted_cons]
  have h2 : ∀ d ∈ [(⟨0, "a", none, 0, 0⟩ : DanmakuItem), ⟨1, "a", none, 0, 0⟩],
      0 ≤ d.time := by
    intro d hd
    rcases List.mem_cons.mp hd with h | h
    · rw [h]
    · simp only [List.mem_singleton] at h
      rw [h]
      norm_num
  have h3 : ∀ k, k < ([(⟨0, "a", none, 0, 0⟩ : DanmakuItem),
      ⟨1, "a", none, 0, 0⟩]).length →
      ([(⟨0, "a", none, 0, 0⟩ : DanmakuItem), ⟨1, "a", none, 0, 0⟩]).countP
        (fun e => decide (e.time
            ≤ (([(⟨0, "a", none, 0, 0⟩ : DanmakuItem),
                ⟨1, "a", none, 0, 0⟩]).getD k defaultItem).time
          ∧ (([(⟨0, "a", none, 0, 0⟩ : DanmakuItem),
                ⟨1, "a", none, 0, 0⟩]).getD k defaultItem).time < e.time + 3)) ≤ 16 :=
    fun k _ => le_trans (List.countP_le_length _) (by norm_num)
  exact ⟨h1, h2, h3, (claim_C5_lane_assignment _ h1 h2 h3).1⟩
